import Mathlib

/-!
Verification of the segment audio playback engine of the read-aloud
language-learning app.

The embedding follows the source (`src/services/geminiService.ts`, which
bundles the service layer and the `App` component) at the granularity of
the browser event loop: every user interaction, every resolution of the
external synthesis call, and every natural completion of an audio source
is one atomic transition of the model (`step`).  Within one such task the
code runs to completion: the only `await` that does not correspond to an
external event is `await decodeAudioData(...)`, whose callee contains no
suspension point, so its continuation runs back-to-back inside the same
microtask drain.

Payloads are modelled as raw byte lists (the base64 transport encoding is
a bijection on byte sequences and is invisible to every claim); PCM
samples are modelled as exact rationals, which is faithful because every
value `v / 32768.0` with `|v| <= 32768` is exactly representable in
binary floating point.
-/

namespace ReadAloud

/-! ### Definitions -/

/-- A reading segment as produced by the external segmentation service
(`types.ts`, `TextSegment`). -/
structure TextSegment where
  id : String
  original : String
  translation : String
deriving DecidableEq

/-- Playback lifecycle phase (`types.ts`, `PlaybackState`). -/
inductive Phase where
  | idle
  | loadingAudio
  | playing
deriving DecidableEq

/-- One `AudioBufferSourceNode` ever created by `playPcmData`.  `live`
is true from `start()` until `stop()` or natural completion;
`armedOnended` holds the `onended` closure (the segment and the
`autoPlayNext` flag it captured), `none` once disarmed. -/
structure Source where
  sid : Nat
  live : Bool
  armedOnended : Option (TextSegment × Bool)
deriving DecidableEq

/-- An in-flight `generateSpeech` call awaited inside `playSegment`:
its token, the segment and chain flag of the suspended continuation and
the voice captured at call time. -/
structure PendingSynth where
  tok : Nat
  segment : TextSegment
  autoPlayNext : Bool
  voice : String
deriving DecidableEq

/-- The mutable state of the `App` component: React state hooks
(`segments`, `playbackState`, `playingSegmentId`, `audioCache`,
`selectedVoice`), the refs (`activeSourceRef`), plus the bookkeeping of
outstanding asynchronous work and two observation logs (`synthCalls`
counts invocations of the external synthesis service, `played` records
every source actually started, in order). -/
structure AppState where
  segments : List TextSegment
  phase : Phase
  playingSegmentId : Option String
  audioCache : List (String × List Nat)
  selectedVoice : String
  activeSourceRef : Option Nat
  sources : List Source
  pendingSynth : List PendingSynth
  nextTok : Nat
  nextSrc : Nat
  synthCalls : Nat
  played : List String
deriving DecidableEq

/-! ## The audio decoder (`decodeAudioData`) -/
/-- Reinterpretation of an unsigned 16-bit word as a signed 16-bit
integer, as performed by the `Int16Array` view in `decodeAudioData`. -/
def toSigned16 (u : Nat) : Int :=
  if u % 65536 < 32768 then ((u % 65536 : Nat) : Int)
  else ((u % 65536 : Nat) : Int) - 65536

/-- The float written to the channel by `decodeAudioData` for one
little-endian byte pair: `dataInt16[i] / 32768.0`. -/
def sampleOfBytes (lo hi : Nat) : ℚ :=
  (toSigned16 (lo % 256 + 256 * (hi % 256)) : ℚ) / 32768

/-- The sample sequence produced by the conversion loop of
`decodeAudioData`: consecutive little-endian 16-bit words in input
order. -/
def decodeSamples : List Nat → List ℚ
  | lo :: hi :: rest => sampleOfBytes lo hi :: decodeSamples rest
  | _ => []

/-- The decoder `decodeAudioData` (together with the failure behaviour
observed by its caller `playPcmData`): constructing the `Int16Array`
view throws on an odd byte length, and `ctx.createBuffer` with zero
frames throws, so decoding fails exactly on empty or odd-length input;
otherwise one float per 16-bit sample is produced. -/
def decodeAudioData (bytes : List Nat) : Option (List ℚ) :=
  if bytes.length = 0 ∨ bytes.length % 2 = 1 then none
  else some (decodeSamples bytes)

/-- Total byte access, index out of range giving 0 (used only to state
theorems; all stated indices are in range). -/
def byteAt : List Nat → Nat → Nat
  | [], _ => 0
  | b :: _, 0 => b
  | _ :: rest, n + 1 => byteAt rest n

/-- Total indexed access into a sample list. -/
def nthSample : List ℚ → Nat → Option ℚ
  | [], _ => none
  | q :: _, 0 => some q
  | _ :: rest, n + 1 => nthSample rest n

/-! ## The segment audio cache -/
/-- Reading `audioCache[segment.id]` (an object-key lookup). -/
def lookupCache : List (String × List Nat) → String → Option (List Nat)
  | [], _ => none
  | (k, v) :: rest, key => if k = key then some v else lookupCache rest key

/-- The functional cache update `setAudioCache(prev => ({...prev,
[segment.id]: pcmBase64}))`: overwrite in place or append. -/
def insertCache : List (String × List Nat) → String → List Nat → List (String × List Nat)
  | [], key, v => [(key, v)]
  | (k, w) :: rest, key, v =>
      if k = key then (key, v) :: rest else (k, w) :: insertCache rest key v

/-! ## State-transformer helpers, one per synchronous block of the source -/
/-- The tail of several control paths: `setPlayingSegmentId(null);
setPlaybackState(PlaybackState.IDLE)`. -/
def idleReset (s : AppState) : AppState :=
  { s with playingSegmentId := none, phase := .idle }

/-- Disarm (`onended = null`) and stop the source with the given id. -/
def killSource : List Source → Nat → List Source
  | [], _ => []
  | src :: rest, n =>
      (if src.sid = n then { src with live := false, armedOnended := none }
       else src) :: killSource rest n

/-- The replace-guard at the top of `playPcmData`: disarm and stop the
currently referenced source.  The ref itself is NOT cleared there. -/
def stopCurrentSource (s : AppState) : AppState :=
  match s.activeSourceRef with
  | some n => { s with sources := killSource s.sources n }
  | none => s

/-- `stopPlayback`: disarm and stop the referenced source, clear the
ref, then clear the active segment and return to Idle. -/
def stopPlaybackFn (s : AppState) : AppState :=
  match s.activeSourceRef with
  | some n =>
      { s with sources := killSource s.sources n, activeSourceRef := none,
               playingSegmentId := none, phase := .idle }
  | none => { s with playingSegmentId := none, phase := .idle }

/-- The cache-miss path of `playSegment`: enter LoadingAudio and invoke
the external `generateSpeech(segment.original, selectedVoice)` call,
recording the suspended continuation. -/
def issueSynth (segment : TextSegment) (autoNext : Bool) (s : AppState) : AppState :=
  { s with phase := .loadingAudio,
           pendingSynth := s.pendingSynth ++ [⟨s.nextTok, segment, autoNext, s.selectedVoice⟩],
           nextTok := s.nextTok + 1,
           synthCalls := s.synthCalls + 1 }

/-- The success path of `playPcmData`: create a buffer source, arm its
`onended` with the `onEnded` closure of `playSegment`, store it in the
ref and start it. -/
def startSource (segment : TextSegment) (autoNext : Bool) (s : AppState) : AppState :=
  { s with sources := s.sources ++ [⟨s.nextSrc, true, some (segment, autoNext)⟩],
           activeSourceRef := some s.nextSrc,
           nextSrc := s.nextSrc + 1,
           played := s.played ++ [segment.id] }

/-- `segments.findIndex(s => s.id === currentId)` in `playNextSegment`. -/
def findSegIdx : List TextSegment → String → Option Nat
  | [], _ => none
  | t :: rest, x => if t.id = x then some 0 else (findSegIdx rest x).map (· + 1)

/-- `segments[i]` with the bounds check of `playNextSegment` folded in
(`none` exactly when the index is out of range). -/
def nthSeg : List TextSegment → Nat → Option TextSegment
  | [], _ => none
  | t :: _, 0 => some t
  | _ :: rest, n + 1 => nthSeg rest n

/-- `activeSourceRef.current` dereference against the source ledger. -/
def findSource : List Source → Nat → Option Source
  | [], _ => none
  | src :: rest, n => if src.sid = n then some src else findSource rest n

/-! ## The sequencer control flow

`playSegment`, its post-synthesis continuation (cache write + decode +
play), and `playNextSegment` form one mutually recursive control flow:
a decode failure with `autoPlayNext` set calls `onEnded`, which calls
`playNextSegment`, which calls `playSegment` on the next segment.  The
recursion is expressed with explicit fuel; `stdFuel` is always enough
because with distinct segment ids the chain moves strictly forward, and
each external-event entry point performs at most one full pass. -/
/-- A point in the sequencer control flow: `seg` is the entry of
`playSegment(segment, autoPlayNext)`; `fin` is the code after the
synthesis payload is available (set Playing, `playPcmData`); `nxt` is
`playNextSegment(currentId)`. -/
inductive CallK where
  | seg (segment : TextSegment) (autoNext : Bool)
  | fin (segment : TextSegment) (autoNext : Bool) (pcm : List Nat)
  | nxt (currentId : String)

/-- One synchronous block of the sequencer; `recur` performs the
recursive transfers of control. -/
def engineStep (recur : CallK → AppState → AppState) : CallK → AppState → AppState
  | .seg segment autoNext, s =>
      -- playSegment: setPlayingSegmentId(segment.id); cache check.
      -- A falsy cached value (empty payload) is treated as a miss.
      let s1 := { s with playingSegmentId := some segment.id }
      match lookupCache s1.audioCache segment.id with
      | some pcm =>
          if pcm = [] then issueSynth segment autoNext s1
          else recur (.fin segment autoNext pcm) s1
      | none => issueSynth segment autoNext s1
  | .fin segment autoNext pcm, s =>
      -- setPlaybackState(PLAYING); playPcmData: stop the current source,
      -- then decode; on success start the new source, on failure the
      -- catch block runs onEnded ("Skip if error").
      let s1 := stopCurrentSource { s with phase := .playing }
      match decodeAudioData pcm with
      | some _ => startSource segment autoNext s1
      | none =>
          if autoNext then recur (.nxt segment.id) s1
          else idleReset s1
  | .nxt currentId, s =>
      -- playNextSegment: find the current index; play the next segment
      -- if one exists, otherwise go Idle.
      match findSegIdx s.segments currentId with
      | some i =>
          match nthSeg s.segments (i + 1) with
          | some nxtSeg => recur (.seg nxtSeg true) s
          | none => idleReset s
      | none => idleReset s

/-- The fueled sequencer control flow. -/
def engine : Nat → CallK → AppState → AppState
  | 0, _, s => s
  | fuel + 1, c, s => engineStep (engine fuel) c s

/-- Fuel budget for one external-event entry: with distinct segment ids
the error-skip chain visits each segment at most once, three control
transfers per segment. -/
def stdFuel (s : AppState) : Nat :=
  3 * s.segments.length + 3

/-! ## External events and the step function -/
/-- `inputText.trim() === ''`. -/
def isBlankText (t : String) : Bool :=
  t.toList.all fun c => c = ' ' || c = '\t' || c = '\n' || c = '\r'

/-- Consume the pending synthesis call with the given token, returning
it and the remaining pending list. -/
def takePending : List PendingSynth → Nat → Option (PendingSynth × List PendingSynth)
  | [], _ => none
  | q :: rest, tok =>
      if q.tok = tok then some (q, rest)
      else match takePending rest tok with
        | some (p, rest2) => some (p, q :: rest2)
        | none => none

/-- One task of the browser event loop: a user interaction, the
resolution of an external call, or the natural completion of a source. -/
inductive Event where
  | clickPlayPause (segment : TextSegment)
  | clickPlayAll
  | clickStop
  | clickClear
  | changeVoice (v : String)
  | processText (text : String)
  | analysisResolve (segs : List TextSegment)
  | analysisFail
  | synthResolve (tok : Nat) (payload : List Nat)
  | synthFail (tok : Nat)
  | sourceEnded (sid : Nat)

/-- One atomic transition of the app: the named browser task run to
completion (including its microtask drain). -/
def step (e : Event) (s : AppState) : AppState :=
  match e with
  | .clickPlayPause segment =>
      -- handlePlayPause: toggle if this segment is active and Playing.
      if s.playingSegmentId = some segment.id ∧ s.phase = .playing then
        stopPlaybackFn s
      else engine (stdFuel s) (.seg segment false) s
  | .clickPlayAll =>
      -- handlePlayAll: start from the first segment with the chain on.
      match s.segments with
      | [] => s
      | first :: _ => engine (stdFuel s) (.seg first true) s
  | .clickStop => stopPlaybackFn s
  | .clickClear =>
      -- handleClear: stop, drop text/segments, clear the cache.
      { (stopPlaybackFn s) with segments := [], audioCache := [] }
  | .changeVoice v =>
      -- setSelectedVoice plus the [selectedVoice] effect: clear the
      -- cache, then stopPlayback.  No-op when the value is unchanged.
      if v = s.selectedVoice then s
      else stopPlaybackFn { s with selectedVoice := v, audioCache := [] }
  | .processText text =>
      -- handleProcess up to the awaited analyzeText call.
      if isBlankText text then s
      else { (stopPlaybackFn s) with segments := [], audioCache := [] }
  | .analysisResolve segs => { s with segments := segs }
  | .analysisFail => s
  | .synthResolve tok payload =>
      -- The continuation of playSegment after generateSpeech resolves:
      -- an empty payload makes generateSpeech throw ("No audio data
      -- generated"), landing in the catch (Idle, no active segment);
      -- otherwise the cache is updated and play proceeds — with no
      -- check that this request is still the active one.
      match takePending s.pendingSynth tok with
      | none => s
      | some (q, rest) =>
          let s1 := { s with pendingSynth := rest }
          if payload = [] then idleReset s1
          else
            let s2 := { s1 with
              audioCache := insertCache s1.audioCache q.segment.id payload }
            engine (stdFuel s2) (.fin q.segment q.autoPlayNext payload) s2
  | .synthFail tok =>
      match takePending s.pendingSynth tok with
      | none => s
      | some (_, rest) => idleReset { s with pendingSynth := rest }
  | .sourceEnded n =>
      -- The armed onended handler: clear the ref, then run onEnded.  A
      -- stopped source never fires (its handler was nulled first); a
      -- disarmed natural completion runs no app code.
      match findSource s.sources n with
      | none => s
      | some src =>
          if src.live then
            match src.armedOnended with
            | some (segment, autoNext) =>
                let s1 := { s with sources := killSource s.sources n,
                                   activeSourceRef := none }
                if autoNext then engine (stdFuel s1) (.nxt segment.id) s1
                else idleReset s1
            | none =>
                { s with sources := s.sources.map fun t =>
                    if t.sid = n then { t with live := false } else t }
          else s

/-- Run a sequence of browser tasks. -/
def run (evs : List Event) (s : AppState) : AppState :=
  evs.foldl (fun t e => step e t) s

/-- The initial component state. -/
def initState : AppState :=
  { segments := [], phase := .idle, playingSegmentId := none,
    audioCache := [], selectedVoice := "Kore", activeSourceRef := none,
    sources := [], pendingSynth := [], nextTok := 0, nextSrc := 0,
    synthCalls := 0, played := [] }

/-! ## Concrete fixtures for witnesses and counterexamples -/
/-- A concrete segment used in witness runs. -/
def segA : TextSegment := ⟨"seg-1", "Knowledge is power.", "know-tr"⟩

/-- A second concrete segment used in witness runs. -/
def segB : TextSegment := ⟨"seg-2", "We must not permit.", "permit-tr"⟩

/-- A well-formed two-sample PCM payload. -/
def goodPcm : List Nat := [0, 0, 0, 64]

/-- A malformed payload of odd byte length. -/
def oddPcm : List Nat := [1, 2, 3]

/-! ## The source-exclusivity invariant (claims C3 and C4) -/
/-- The source-ledger invariant: ids are fresh and distinct, every
stopped source is disarmed, every live source is armed, and every live
source is the one held by `activeSourceRef`. -/
def SrcInvCore (sources : List Source) (ref : Option Nat) (nextSrc : Nat) : Prop :=
  (∀ src ∈ sources, src.sid < nextSrc) ∧
  (sources.map Source.sid).Nodup ∧
  (∀ src ∈ sources, src.live = false → src.armedOnended = none) ∧
  (∀ src ∈ sources, src.live = true → src.armedOnended ≠ none) ∧
  (∀ src ∈ sources, src.live = true → ref = some src.sid)

/-- The source-ledger invariant of an application state. -/
def SrcInv (s : AppState) : Prop :=
  SrcInvCore s.sources s.activeSourceRef s.nextSrc

/-! ## Cache behaviour (claim C6) -/
/-- Events that neither clear the cache nor replace the segment list
("same voice and same list" in the claim). -/
def keepsCache : Event → Bool
  | .changeVoice _ => false
  | .processText _ => false
  | .clickClear => false
  | .analysisResolve _ => false
  | _ => true

/-! ## The playAll chain (claim C8)

The canonical error-free run of `handlePlayAll` over a list of segments
paired with the payloads their synthesis calls return: one synthesis
resolution and one natural completion per segment. -/
/-- The cache contents after the listed (segment, payload) pairs have
been fetched, in order. -/
def cacheOf (done : List (TextSegment × List Nat)) : List (String × List Nat) :=
  done.map fun pr => (pr.1.id, pr.2)

/-- A ledger of `n` finished (stopped-or-completed, disarmed) sources. -/
def deadSources (n : Nat) : List Source :=
  (List.range n).map fun i => ⟨i, false, none⟩

/-- A fresh session whose analysis produced `segs`. -/
def startState (segs : List TextSegment) : AppState :=
  { initState with segments := segs }

/-- The session state in the middle of a `playAll` chain: the segments
of `done` have played to completion, and the synthesis call for `cur`
is in flight with the chain flag set. -/
def midState (segs : List TextSegment) (done : List (TextSegment × List Nat))
    (cur : TextSegment) : AppState :=
  { segments := segs, phase := .loadingAudio, playingSegmentId := some cur.id,
    audioCache := cacheOf done, selectedVoice := "Kore", activeSourceRef := none,
    sources := deadSources done.length,
    pendingSynth := [⟨done.length, cur, true, "Kore"⟩],
    nextTok := done.length + 1, nextSrc := done.length,
    synthCalls := done.length + 1, played := done.map fun pr => pr.1.id }

/-- The session state while `cur` (the `done.length`-th segment of the
chain) is audibly playing. -/
def playingState (segs : List TextSegment)
    (done : List (TextSegment × List Nat)) (cur : TextSegment)
    (p : List Nat) : AppState :=
  { segments := segs, phase := .playing, playingSegmentId := some cur.id,
    audioCache := cacheOf (done ++ [(cur, p)]), selectedVoice := "Kore",
    activeSourceRef := some done.length,
    sources := deadSources done.length
      ++ [⟨done.length, true, some (cur, true)⟩],
    pendingSynth := [], nextTok := done.length + 1,
    nextSrc := done.length + 1, synthCalls := done.length + 1,
    played := (done ++ [(cur, p)]).map fun pr => pr.1.id }

/-- The session state after the chain has finished all of `done`. -/
def endState (segs : List TextSegment)
    (done : List (TextSegment × List Nat)) : AppState :=
  { segments := segs, phase := .idle, playingSegmentId := none,
    audioCache := cacheOf done, selectedVoice := "Kore", activeSourceRef := none,
    sources := deadSources done.length, pendingSynth := [],
    nextTok := done.length, nextSrc := done.length,
    synthCalls := done.length, played := done.map fun pr => pr.1.id }

/-- The synthesis resolutions and natural completions of an error-free
chain, starting at token and source id `k`. -/
def chainEvents : Nat → List (List Nat) → List Event
  | _, [] => []
  | k, p :: ps => .synthResolve k p :: .sourceEnded k :: chainEvents (k + 1) ps

/-- The full canonical event trace of an error-free `playAll` run. -/
def playAllTrace (pairs : List (TextSegment × List Nat)) : List Event :=
  .clickPlayAll :: chainEvents 0 (pairs.map fun pr => pr.2)

/-! ### Theorems -/

theorem decodeSamples_length (bytes : List Nat) :
    (decodeSamples bytes).length = bytes.length / 2 := by
  match bytes with
  | [] => rfl
  | [b] => simp [decodeSamples]
  | lo :: hi :: rest =>
    simp only [decodeSamples, List.length_cons]
    rw [decodeSamples_length rest]
    omega

theorem nthSample_decodeSamples (bytes : List Nat) (i : Nat)
    (h : i < (decodeSamples bytes).length) :
    nthSample (decodeSamples bytes) i
      = some (sampleOfBytes (byteAt bytes (2 * i)) (byteAt bytes (2 * i + 1))) := by
  match bytes, i with
  | [], i => simp [decodeSamples] at h
  | [b], i => simp [decodeSamples] at h
  | lo :: hi :: rest, 0 => rfl
  | lo :: hi :: rest, i + 1 =>
    simp only [decodeSamples, List.length_cons] at h
    have h2 : i < (decodeSamples rest).length := by omega
    have heq : nthSample (decodeSamples rest) i
        = some (sampleOfBytes (byteAt rest (2 * i)) (byteAt rest (2 * i + 1))) :=
      nthSample_decodeSamples rest i h2
    have e1 : 2 * (i + 1) = 2 * i + 1 + 1 := by ring
    rw [e1]
    simp only [decodeSamples, nthSample, byteAt]
    exact heq

theorem toSigned16_lower (u : Nat) : -32768 ≤ toSigned16 u := by
  unfold toSigned16
  split <;> omega

theorem toSigned16_upper (u : Nat) : toSigned16 u < 32768 := by
  unfold toSigned16
  have : u % 65536 < 65536 := Nat.mod_lt _ (by omega)
  split <;> omega

theorem toSigned16_emod (u : Nat) :
    (toSigned16 u) % (65536 : ℤ) = (u : ℤ) % 65536 := by
  unfold toSigned16
  have h1 : u % 65536 < 65536 := Nat.mod_lt _ (by omega)
  have h2 : ((u % 65536 : Nat) : ℤ) = (u : ℤ) % 65536 := by
    push_cast
    omega
  split <;> omega

/-- C5: for every even-length, non-empty byte sequence, decode yields one
floating-point sample per 16-bit little-endian input sample, in the
original order, of length byte-length/2, each equal to the signed integer
value (the unique `v` with `-32768 ≤ v < 32768` congruent to the
little-endian word mod `2^16`) divided by 32768, with no clipping or peak
rescaling. -/
theorem c5_decode_linear_pcm (bytes : List Nat)
    (hne : bytes ≠ []) (heven : bytes.length % 2 = 0) :
    ∃ samples : List ℚ,
      decodeAudioData bytes = some samples ∧
      samples.length = bytes.length / 2 ∧
      ∀ i, i < samples.length →
        ∃ v : ℤ, -32768 ≤ v ∧ v < 32768 ∧
          v % 65536
            = ((byteAt bytes (2 * i) % 256 : Nat)
                + 256 * (byteAt bytes (2 * i + 1) % 256 : Nat) : ℤ) % 65536 ∧
          nthSample samples i = some ((v : ℚ) / 32768) := by
  refine ⟨decodeSamples bytes, ?_, decodeSamples_length bytes, ?_⟩
  · unfold decodeAudioData
    rw [if_neg]
    intro hc
    rcases hc with hc | hc
    · exact hne (List.length_eq_zero.mp hc)
    · omega
  · intro i hi
    refine ⟨toSigned16 (byteAt bytes (2 * i) % 256
      + 256 * (byteAt bytes (2 * i + 1) % 256)), toSigned16_lower _,
      toSigned16_upper _, ?_, ?_⟩
    · rw [toSigned16_emod]
      push_cast
      rfl
    · rw [nthSample_decodeSamples bytes i hi]
      rfl

/-- Witness for C5 at the payload encoding the samples 0, 16384, -16384,
32767 (little-endian bytes), which decode to 0, 1/2, -1/2, 32767/32768. -/
theorem c5_decode_linear_pcm_witness :
    ∃ samples : List ℚ,
      decodeAudioData [0, 0, 0, 64, 0, 192, 255, 127] = some samples ∧
      samples.length = [0, 0, 0, 64, 0, 192, 255, 127].length / 2 ∧
      ∀ i, i < samples.length →
        ∃ v : ℤ, -32768 ≤ v ∧ v < 32768 ∧
          v % 65536
            = ((byteAt [0, 0, 0, 64, 0, 192, 255, 127] (2 * i) % 256 : Nat)
                + 256 * (byteAt [0, 0, 0, 64, 0, 192, 255, 127] (2 * i + 1) % 256 : Nat) : ℤ) % 65536 ∧
          nthSample samples i = some ((v : ℚ) / 32768) :=
  c5_decode_linear_pcm [0, 0, 0, 64, 0, 192, 255, 127] (by decide) (by decide)

/-! ## Unfolding lemmas for the fueled control flow -/
theorem engine_succ (fuel : Nat) (c : CallK) (s : AppState) :
    engine (fuel + 1) c s = engineStep (engine fuel) c s := rfl

theorem stdFuel_succ (s : AppState) :
    stdFuel s = (3 * s.segments.length + 2) + 1 := rfl

theorem engine_seg_miss (fuel : Nat) (seg : TextSegment) (auto : Bool)
    (s : AppState) (h : lookupCache s.audioCache seg.id = none) :
    engine (fuel + 1) (.seg seg auto) s
      = issueSynth seg auto { s with playingSegmentId := some seg.id } := by
  simp [engine, engineStep, h]

theorem engine_seg_hit (fuel : Nat) (seg : TextSegment) (auto : Bool)
    (s : AppState) (pcm : List Nat)
    (h : lookupCache s.audioCache seg.id = some pcm) (hne : pcm ≠ []) :
    engine (fuel + 1) (.seg seg auto) s
      = engine fuel (.fin seg auto pcm) { s with playingSegmentId := some seg.id } := by
  simp [engine, engineStep, h, hne]

theorem engine_fin_ok (fuel : Nat) (seg : TextSegment) (auto : Bool)
    (pcm : List Nat) (s : AppState) (h : (decodeAudioData pcm).isSome) :
    engine (fuel + 1) (.fin seg auto pcm) s
      = startSource seg auto (stopCurrentSource { s with phase := .playing }) := by
  rcases ho : decodeAudioData pcm with _ | buf
  · rw [ho] at h; simp at h
  · simp [engine, engineStep, ho]

theorem engine_fin_bad_chain (fuel : Nat) (seg : TextSegment)
    (pcm : List Nat) (s : AppState) (h : decodeAudioData pcm = none) :
    engine (fuel + 1) (.fin seg true pcm) s
      = engine fuel (.nxt seg.id) (stopCurrentSource { s with phase := .playing }) := by
  simp [engine, engineStep, h]

theorem engine_fin_bad_single (fuel : Nat) (seg : TextSegment)
    (pcm : List Nat) (s : AppState) (h : decodeAudioData pcm = none) :
    engine (fuel + 1) (.fin seg false pcm) s
      = idleReset (stopCurrentSource { s with phase := .playing }) := by
  simp [engine, engineStep, h]

theorem engine_nxt_found (fuel : Nat) (x : String) (i : Nat)
    (t : TextSegment) (s : AppState)
    (h1 : findSegIdx s.segments x = some i)
    (h2 : nthSeg s.segments (i + 1) = some t) :
    engine (fuel + 1) (.nxt x) s = engine fuel (.seg t true) s := by
  simp [engine, engineStep, h1, h2]

theorem engine_nxt_last (fuel : Nat) (x : String) (i : Nat) (s : AppState)
    (h1 : findSegIdx s.segments x = some i)
    (h2 : nthSeg s.segments (i + 1) = none) :
    engine (fuel + 1) (.nxt x) s = idleReset s := by
  simp [engine, engineStep, h1, h2]

/-- Every entry of `killSource l n` whose id is `n` is stopped and
disarmed. -/
theorem killSource_spec (l : List Source) (n : Nat) :
    ∀ src ∈ killSource l n, src.sid = n →
      src.live = false ∧ src.armedOnended = none := by
  induction l with
  | nil => intro src h; simp [killSource] at h
  | cons a l ih =>
    intro src hmem hsid
    simp only [killSource, List.mem_cons] at hmem
    rcases hmem with h | h
    · by_cases hc : a.sid = n
      · rw [if_pos hc] at h
        rw [h]
        exact ⟨rfl, rfl⟩
      · rw [if_neg hc] at h
        rw [h] at hsid
        exact absurd hsid hc
    · exact ih src h hsid

/-- Every element of `killSource l n` either is a stopped-and-disarmed
copy of an element of `l` with id `n`, or is an untouched element of `l`
whose id is not `n`. -/
theorem mem_killSource (l : List Source) (n : Nat) (src : Source)
    (h : src ∈ killSource l n) :
    (src.live = false ∧ src.armedOnended = none ∧ ∃ orig ∈ l, orig.sid = src.sid) ∨
    (src ∈ l ∧ src.sid ≠ n) := by
  induction l with
  | nil => simp [killSource] at h
  | cons a l ih =>
    simp only [killSource, List.mem_cons] at h
    rcases h with h | h
    · by_cases hc : a.sid = n
      · rw [if_pos hc] at h
        left
        rw [h]
        exact ⟨rfl, rfl, a, List.mem_cons_self a l, rfl⟩
      · rw [if_neg hc] at h
        right
        rw [h]
        exact ⟨List.mem_cons_self a l, hc⟩
    · rcases ih h with ⟨h1, h2, orig, ho, hs⟩ | ⟨h1, h2⟩
      · exact Or.inl ⟨h1, h2, orig, List.mem_cons_of_mem a ho, hs⟩
      · exact Or.inr ⟨List.mem_cons_of_mem a h1, h2⟩

/-- Stopping a source does not change the ids in the ledger. -/
theorem killSource_sid_map (l : List Source) (n : Nat) :
    (killSource l n).map Source.sid = l.map Source.sid := by
  induction l with
  | nil => rfl
  | cons a l ih =>
    by_cases hc : a.sid = n <;> simp [killSource, hc, ih]

/-- A successful `findSource` returns a member with the requested id. -/
theorem findSource_mem (l : List Source) (n : Nat) (src : Source)
    (h : findSource l n = some src) : src ∈ l ∧ src.sid = n := by
  induction l with
  | nil => simp [findSource] at h
  | cons a l ih =>
    simp only [findSource] at h
    by_cases hc : a.sid = n
    · rw [if_pos hc] at h
      injection h with h
      rw [← h]
      exact ⟨List.mem_cons_self a l, hc⟩
    · rw [if_neg hc] at h
      rcases ih h with ⟨h1, h2⟩
      exact ⟨List.mem_cons_of_mem a h1, h2⟩

@[simp] theorem stopPlaybackFn_audioCache (s : AppState) :
    (stopPlaybackFn s).audioCache = s.audioCache := by
  cases href : s.activeSourceRef <;> simp [stopPlaybackFn, href]

@[simp] theorem stopPlaybackFn_playingSegmentId (s : AppState) :
    (stopPlaybackFn s).playingSegmentId = none := by
  cases href : s.activeSourceRef <;> simp [stopPlaybackFn, href]

@[simp] theorem stopPlaybackFn_phase (s : AppState) :
    (stopPlaybackFn s).phase = .idle := by
  cases href : s.activeSourceRef <;> simp [stopPlaybackFn, href]

@[simp] theorem stopPlaybackFn_activeSourceRef (s : AppState) :
    (stopPlaybackFn s).activeSourceRef = none := by
  cases href : s.activeSourceRef <;> simp [stopPlaybackFn, href]

@[simp] theorem stopPlaybackFn_synthCalls (s : AppState) :
    (stopPlaybackFn s).synthCalls = s.synthCalls := by
  cases href : s.activeSourceRef <;> simp [stopPlaybackFn, href]

@[simp] theorem stopPlaybackFn_pendingSynth (s : AppState) :
    (stopPlaybackFn s).pendingSynth = s.pendingSynth := by
  cases href : s.activeSourceRef <;> simp [stopPlaybackFn, href]

@[simp] theorem stopPlaybackFn_segments (s : AppState) :
    (stopPlaybackFn s).segments = s.segments := by
  cases href : s.activeSourceRef <;> simp [stopPlaybackFn, href]

@[simp] theorem stopPlaybackFn_selectedVoice (s : AppState) :
    (stopPlaybackFn s).selectedVoice = s.selectedVoice := by
  cases href : s.activeSourceRef <;> simp [stopPlaybackFn, href]

@[simp] theorem stopCurrentSource_segments (s : AppState) :
    (stopCurrentSource s).segments = s.segments := by
  cases href : s.activeSourceRef <;> simp [stopCurrentSource, href]

@[simp] theorem stopCurrentSource_audioCache (s : AppState) :
    (stopCurrentSource s).audioCache = s.audioCache := by
  cases href : s.activeSourceRef <;> simp [stopCurrentSource, href]

@[simp] theorem stopCurrentSource_synthCalls (s : AppState) :
    (stopCurrentSource s).synthCalls = s.synthCalls := by
  cases href : s.activeSourceRef <;> simp [stopCurrentSource, href]

@[simp] theorem stopCurrentSource_pendingSynth (s : AppState) :
    (stopCurrentSource s).pendingSynth = s.pendingSynth := by
  cases href : s.activeSourceRef <;> simp [stopCurrentSource, href]

@[simp] theorem stopCurrentSource_phase (s : AppState) :
    (stopCurrentSource s).phase = s.phase := by
  cases href : s.activeSourceRef <;> simp [stopCurrentSource, href]

@[simp] theorem stopCurrentSource_playingSegmentId (s : AppState) :
    (stopCurrentSource s).playingSegmentId = s.playingSegmentId := by
  cases href : s.activeSourceRef <;> simp [stopCurrentSource, href]

@[simp] theorem stopCurrentSource_activeSourceRef (s : AppState) :
    (stopCurrentSource s).activeSourceRef = s.activeSourceRef := by
  cases href : s.activeSourceRef <;> simp [stopCurrentSource, href]

@[simp] theorem stopCurrentSource_nextSrc (s : AppState) :
    (stopCurrentSource s).nextSrc = s.nextSrc := by
  cases href : s.activeSourceRef <;> simp [stopCurrentSource, href]

@[simp] theorem stopCurrentSource_nextTok (s : AppState) :
    (stopCurrentSource s).nextTok = s.nextTok := by
  cases href : s.activeSourceRef <;> simp [stopCurrentSource, href]

@[simp] theorem stopCurrentSource_played (s : AppState) :
    (stopCurrentSource s).played = s.played := by
  cases href : s.activeSourceRef <;> simp [stopCurrentSource, href]

@[simp] theorem stopCurrentSource_selectedVoice (s : AppState) :
    (stopCurrentSource s).selectedVoice = s.selectedVoice := by
  cases href : s.activeSourceRef <;> simp [stopCurrentSource, href]

/-! ## Claim theorems -/
/-- C1 (code-bug evidence): `stop()` is invoked while the synthesis call
for `segA` is in flight; when that call resolves, the payload is indeed
written to the cache under the segment id, but — contrary to the claim —
playback IS started: the phase becomes Playing and a live Playback
Engine source is created for the superseded result.  The code performs
no `activeSegmentId`/supersession check after the await. -/
theorem c1_superseded_response_starts_playback :
    (run [.processText "hi", .analysisResolve [segA], .clickPlayPause segA,
          .clickStop, .synthResolve 0 goodPcm] initState).phase = .playing ∧
    lookupCache (run [.processText "hi", .analysisResolve [segA],
          .clickPlayPause segA, .clickStop,
          .synthResolve 0 goodPcm] initState).audioCache segA.id = some goodPcm ∧
    (run [.processText "hi", .analysisResolve [segA], .clickPlayPause segA,
          .clickStop, .synthResolve 0 goodPcm] initState).activeSourceRef = some 0 ∧
    findSource (run [.processText "hi", .analysisResolve [segA],
          .clickPlayPause segA, .clickStop,
          .synthResolve 0 goodPcm] initState).sources 0
      = some ⟨0, true, some (segA, false)⟩ ∧
    (run [.processText "hi", .analysisResolve [segA], .clickPlayPause segA,
          .clickStop, .synthResolve 0 goodPcm] initState).played = [segA.id] := by
  decide

/-- C2 counterexample: during `playAll` over `[segA, segB]`, the
synthesis for `segA` resolves with an odd-byte-length payload; decode
fails, yet the Sequencer does NOT return to Idle with no active segment
— the error-skip path (`onEnded(); // Skip if error`) advances the
chain: `segB` becomes the active segment, the phase is LoadingAudio and
a second synthesis call has been issued. -/
theorem c2_decode_failure_advances_chain_counterexample :
    (run [.processText "hi", .analysisResolve [segA, segB], .clickPlayAll,
          .synthResolve 0 oddPcm] initState).phase = .loadingAudio ∧
    (run [.processText "hi", .analysisResolve [segA, segB], .clickPlayAll,
          .synthResolve 0 oddPcm] initState).playingSegmentId = some segB.id ∧
    (run [.processText "hi", .analysisResolve [segA, segB], .clickPlayAll,
          .synthResolve 0 oddPcm] initState).pendingSynth
      = [⟨1, segB, true, "Kore"⟩] ∧
    (run [.processText "hi", .analysisResolve [segA, segB], .clickPlayAll,
          .synthResolve 0 oddPcm] initState).synthCalls = 2 := by
  decide

/-- C4 counterexample: `segA` is playing and the user requests `segB`,
which is a cache miss; the session enters LoadingAudio WITHOUT stopping
the current source, so the active handle is non-null (and its source
live and armed) while the phase is not Playing — refuting the claimed
equivalence and the claimed source-free LoadingAudio. -/
theorem c4_handle_iff_playing_counterexample :
    ¬ (((run [.processText "hi", .analysisResolve [segA, segB],
          .clickPlayPause segA, .synthResolve 0 goodPcm,
          .clickPlayPause segB] initState).activeSourceRef ≠ none)
        ↔ (run [.processText "hi", .analysisResolve [segA, segB],
          .clickPlayPause segA, .synthResolve 0 goodPcm,
          .clickPlayPause segB] initState).phase = .playing) ∧
    (run [.processText "hi", .analysisResolve [segA, segB],
          .clickPlayPause segA, .synthResolve 0 goodPcm,
          .clickPlayPause segB] initState).phase = .loadingAudio ∧
    ((run [.processText "hi", .analysisResolve [segA, segB],
          .clickPlayPause segA, .synthResolve 0 goodPcm,
          .clickPlayPause segB] initState).sources.filter
        (fun src => src.live)).length = 1 := by
  decide

/-- C10: changing the selected voice (to a different value) clears the
audio cache AND stops any playback in progress: the referenced source
(if any) is stopped with its completion callback disarmed, the phase is
Idle, the ref is cleared and no segment is active. -/
theorem c10_voice_change_stops_playback (s : AppState) (v : String)
    (hv : v ≠ s.selectedVoice) :
    (step (.changeVoice v) s).phase = .idle ∧
    (step (.changeVoice v) s).playingSegmentId = none ∧
    (step (.changeVoice v) s).activeSourceRef = none ∧
    (step (.changeVoice v) s).audioCache = [] ∧
    (step (.changeVoice v) s).selectedVoice = v ∧
    (∀ n, s.activeSourceRef = some n →
      ∀ src ∈ (step (.changeVoice v) s).sources, src.sid = n →
        src.live = false ∧ src.armedOnended = none) := by
  simp only [step, if_neg hv]
  rcases href : s.activeSourceRef with _ | n
  · simp [stopPlaybackFn, href]
  · simp only [stopPlaybackFn, href]
    refine ⟨trivial, trivial, trivial, trivial, trivial, ?_⟩
    intro m hm src hmem hsid
    obtain rfl : n = m := by injection hm
    exact killSource_spec _ _ src hmem hsid

/-- Witness for C10: a voice change while `segA` is playing. -/
theorem c10_voice_change_stops_playback_witness :
    ((step (.changeVoice "Puck")
        (run [.processText "hi", .analysisResolve [segA],
              .clickPlayPause segA, .synthResolve 0 goodPcm] initState)).phase
      = .idle) ∧
    ((step (.changeVoice "Puck")
        (run [.processText "hi", .analysisResolve [segA],
              .clickPlayPause segA, .synthResolve 0 goodPcm] initState)).playingSegmentId
      = none) ∧
    ((step (.changeVoice "Puck")
        (run [.processText "hi", .analysisResolve [segA],
              .clickPlayPause segA, .synthResolve 0 goodPcm] initState)).activeSourceRef
      = none) ∧
    ((step (.changeVoice "Puck")
        (run [.processText "hi", .analysisResolve [segA],
              .clickPlayPause segA, .synthResolve 0 goodPcm] initState)).audioCache
      = []) ∧
    ((step (.changeVoice "Puck")
        (run [.processText "hi", .analysisResolve [segA],
              .clickPlayPause segA, .synthResolve 0 goodPcm] initState)).selectedVoice
      = "Puck") ∧
    (∀ n, (run [.processText "hi", .analysisResolve [segA],
              .clickPlayPause segA, .synthResolve 0 goodPcm] initState).activeSourceRef
        = some n →
      ∀ src ∈ (step (.changeVoice "Puck")
        (run [.processText "hi", .analysisResolve [segA],
              .clickPlayPause segA, .synthResolve 0 goodPcm] initState)).sources,
        src.sid = n → src.live = false ∧ src.armedOnended = none) :=
  c10_voice_change_stops_playback _ "Puck" (by decide)

/-- C9: invoking play on the segment whose id equals the active one
while Playing behaves exactly as `stop()`; invoking play on any other
segment, or while the phase is not Playing, is exactly a new
`play(segment, chain=false)` request (the `playSegment(segment, false)`
control flow), and when that request replaces a referenced source (here:
the cache-hit case, where replacement happens in the same task) the
replaced source is stopped and its completion callback disarmed, so it
can never fire. -/
theorem c9_toggle_semantics (s : AppState) (seg : TextSegment) :
    ((s.playingSegmentId = some seg.id ∧ s.phase = .playing) →
      step (.clickPlayPause seg) s = stopPlaybackFn s) ∧
    (¬ (s.playingSegmentId = some seg.id ∧ s.phase = .playing) →
      step (.clickPlayPause seg) s = engine (stdFuel s) (.seg seg false) s) ∧
    (∀ n pcm, ¬ (s.playingSegmentId = some seg.id ∧ s.phase = .playing) →
      s.activeSourceRef = some n → n ≠ s.nextSrc →
      lookupCache s.audioCache seg.id = some pcm → pcm ≠ [] →
      ∀ src ∈ (step (.clickPlayPause seg) s).sources, src.sid = n →
        src.live = false ∧ src.armedOnended = none) := by
  refine ⟨fun h => by simp [step, h], fun h => by simp [step, h], ?_⟩
  intro n pcm htog href hfresh hlook hne src hmem hsid
  rw [step] at hmem
  rw [if_neg htog, stdFuel_succ, engine_seg_hit _ _ _ _ pcm hlook hne] at hmem
  rcases hdec : decodeAudioData pcm with _ | buf
  · rw [show (3 * s.segments.length + 2) = (3 * s.segments.length + 1) + 1 from rfl,
      engine_fin_bad_single _ _ _ _ hdec] at hmem
    simp only [idleReset, stopCurrentSource, href] at hmem
    exact killSource_spec _ _ src hmem hsid
  · rw [show (3 * s.segments.length + 2) = (3 * s.segments.length + 1) + 1 from rfl,
      engine_fin_ok _ _ _ _ _ (by rw [hdec]; rfl)] at hmem
    simp only [startSource, stopCurrentSource, href, List.mem_append,
      List.mem_singleton] at hmem
    rcases hmem with hmem | hmem
    · exact killSource_spec _ _ src hmem hsid
    · exfalso
      apply hfresh
      rw [← hsid, hmem]

/-- Witness for C9: requesting `segB` while `segA` is playing (not a
toggle) dispatches to a fresh `play(segB, chain=false)`. -/
theorem c9_toggle_semantics_witness :
    step (.clickPlayPause segB)
        (run [.processText "hi", .analysisResolve [segA, segB],
              .clickPlayPause segA, .synthResolve 0 goodPcm] initState)
      = engine (stdFuel (run [.processText "hi", .analysisResolve [segA, segB],
              .clickPlayPause segA, .synthResolve 0 goodPcm] initState))
          (.seg segB false)
          (run [.processText "hi", .analysisResolve [segA, segB],
              .clickPlayPause segA, .synthResolve 0 goodPcm] initState) :=
  (c9_toggle_semantics _ segB).2.1 (by decide)

/-- C7: a voice change and a (non-blank) new analysis submission each
clear the entire audio cache, and the immediately following play request
for any segment misses the cache and re-invokes the Synthesis service
(the synthesis-call counter increments). -/
theorem c7_cache_invalidation (s : AppState) (v text : String)
    (seg : TextSegment) (hv : v ≠ s.selectedVoice)
    (ht : isBlankText text = false) :
    (step (.changeVoice v) s).audioCache = [] ∧
    (step (.clickPlayPause seg) (step (.changeVoice v) s)).synthCalls
      = (step (.changeVoice v) s).synthCalls + 1 ∧
    (step (.processText text) s).audioCache = [] ∧
    (step (.clickPlayPause seg) (step (.processText text) s)).synthCalls
      = (step (.processText text) s).synthCalls + 1 := by
  have hv1 : (step (.changeVoice v) s) =
      stopPlaybackFn { s with selectedVoice := v, audioCache := [] } := by
    simp [step, hv]
  have ht1 : (step (.processText text) s) =
      { (stopPlaybackFn s) with segments := [], audioCache := [] } := by
    simp [step, ht]
  have miss : ∀ t : AppState, t.audioCache = [] → t.playingSegmentId = none →
      (step (.clickPlayPause seg) t).synthCalls = t.synthCalls + 1 := by
    intro t hc hid
    rw [step, if_neg (by simp [hid]), stdFuel_succ,
      engine_seg_miss _ _ _ _ (by rw [hc]; rfl)]
    rfl
  refine ⟨by rw [hv1]; simp, ?_, by rw [ht1], ?_⟩
  · rw [hv1]
    exact miss _ (by simp) (by simp)
  · rw [ht1]
    exact miss _ rfl (by simp)

/-- Witness for C7: concrete voice change and re-analysis after a
successful cached play of `segA`. -/
theorem c7_cache_invalidation_witness :
    ((step (.changeVoice "Puck")
        (run [.processText "hi", .analysisResolve [segA],
              .clickPlayPause segA, .synthResolve 0 goodPcm] initState)).audioCache
      = []) ∧
    ((step (.clickPlayPause segA) (step (.changeVoice "Puck")
        (run [.processText "hi", .analysisResolve [segA],
              .clickPlayPause segA, .synthResolve 0 goodPcm] initState))).synthCalls
      = (step (.changeVoice "Puck")
        (run [.processText "hi", .analysisResolve [segA],
              .clickPlayPause segA, .synthResolve 0 goodPcm] initState)).synthCalls + 1) ∧
    ((step (.processText "more text")
        (run [.processText "hi", .analysisResolve [segA],
              .clickPlayPause segA, .synthResolve 0 goodPcm] initState)).audioCache
      = []) ∧
    ((step (.clickPlayPause segA) (step (.processText "more text")
        (run [.processText "hi", .analysisResolve [segA],
              .clickPlayPause segA, .synthResolve 0 goodPcm] initState))).synthCalls
      = (step (.processText "more text")
        (run [.processText "hi", .analysisResolve [segA],
              .clickPlayPause segA, .synthResolve 0 goodPcm] initState)).synthCalls + 1) :=
  c7_cache_invalidation _ "Puck" "more text" segA (by decide) (by decide)

/-- C2 (amended): resolving an in-flight synthesis call with a payload
that fails to decode never crashes the Sequencer (the transition is
total).  An empty payload never reaches the decoder: `generateSpeech`
itself throws ("No audio data generated") and `playSegment`'s catch
runs, so in every chain mode the session returns to Idle with no
active segment, no new synthesis call, and no chain advance.  A
non-empty payload that fails decode (e.g. odd byte length) reaches the
"Skip if error" path: with chain mode off the phase returns to Idle
with no active segment; with chain mode on the chain is NOT stopped:
the next segment (here looked up as a cache miss) becomes active in
LoadingAudio with a fresh synthesis call issued, and only when no next
segment exists does the session return to Idle with no active
segment. -/
theorem c2_amended_decode_failure (s : AppState) (tok : Nat)
    (q : PendingSynth) (rest : List PendingSynth) (payload : List Nat)
    (htake : takePending s.pendingSynth tok = some (q, rest)) :
    (payload = [] →
      (step (.synthResolve tok payload) s).phase = .idle ∧
      (step (.synthResolve tok payload) s).playingSegmentId = none ∧
      (step (.synthResolve tok payload) s).pendingSynth = rest ∧
      (step (.synthResolve tok payload) s).synthCalls = s.synthCalls) ∧
    (payload ≠ [] → decodeAudioData payload = none →
      q.autoPlayNext = false →
      (step (.synthResolve tok payload) s).phase = .idle ∧
      (step (.synthResolve tok payload) s).playingSegmentId = none) ∧
    (∀ i nxt, payload ≠ [] → decodeAudioData payload = none →
      q.autoPlayNext = true →
      findSegIdx s.segments q.segment.id = some i →
      nthSeg s.segments (i + 1) = some nxt →
      lookupCache (insertCache s.audioCache q.segment.id payload) nxt.id = none →
      (step (.synthResolve tok payload) s).phase = .loadingAudio ∧
      (step (.synthResolve tok payload) s).playingSegmentId = some nxt.id ∧
      (step (.synthResolve tok payload) s).pendingSynth
        = rest ++ [⟨s.nextTok, nxt, true, s.selectedVoice⟩]) ∧
    (∀ i, payload ≠ [] → decodeAudioData payload = none →
      q.autoPlayNext = true →
      findSegIdx s.segments q.segment.id = some i →
      nthSeg s.segments (i + 1) = none →
      (step (.synthResolve tok payload) s).phase = .idle ∧
      (step (.synthResolve tok payload) s).playingSegmentId = none) := by
  have hstep : payload ≠ [] → step (.synthResolve tok payload) s
      = engine (stdFuel { s with
            pendingSynth := rest,
            audioCache := insertCache s.audioCache q.segment.id payload })
          (.fin q.segment q.autoPlayNext payload)
          { s with
            pendingSynth := rest,
            audioCache := insertCache s.audioCache q.segment.id payload } := by
    intro hne
    simp [step, htake, hne]
  refine ⟨?_, ?_, ?_, ?_⟩
  · intro hemp
    subst hemp
    simp [step, htake, idleReset]
  · intro hne hdec hauto
    rw [hstep hne, hauto, stdFuel_succ, engine_fin_bad_single _ _ _ _ hdec]
    simp [idleReset]
  · intro i nxt hne hdec hauto hidx hnth hmiss
    rw [hstep hne, hauto, stdFuel_succ, engine_fin_bad_chain _ _ _ _ hdec,
      show (3 * ({ s with
            pendingSynth := rest,
            audioCache := insertCache s.audioCache q.segment.id payload }
          : AppState).segments.length + 2)
        = (3 * s.segments.length + 1) + 1 from rfl,
      engine_nxt_found _ _ i nxt _ (by simpa using hidx) (by simpa using hnth),
      show (3 * s.segments.length + 1) = (3 * s.segments.length) + 1 from rfl,
      engine_seg_miss _ _ _ _ (by simpa using hmiss)]
    simp [issueSynth]
  · intro i hne hdec hauto hidx hnth
    rw [hstep hne, hauto, stdFuel_succ, engine_fin_bad_chain _ _ _ _ hdec,
      show (3 * ({ s with
            pendingSynth := rest,
            audioCache := insertCache s.audioCache q.segment.id payload }
          : AppState).segments.length + 2)
        = (3 * s.segments.length + 1) + 1 from rfl,
      engine_nxt_last _ _ i _ (by simpa using hidx) (by simpa using hnth)]
    simp [idleReset]

/-- Witness for C2 (amended), both failure shapes during `playAll` over
`[segA, segB]`: resolving `segA`'s synthesis with an empty payload stops
the chain (Idle, no active segment, no pending or counted synthesis
call), while resolving it with an odd-length payload advances the chain
to `segB`. -/
theorem c2_amended_decode_failure_witness :
    ((step (.synthResolve 0 [])
        (run [.processText "hi", .analysisResolve [segA, segB],
              .clickPlayAll] initState)).phase = .idle ∧
      (step (.synthResolve 0 [])
        (run [.processText "hi", .analysisResolve [segA, segB],
              .clickPlayAll] initState)).playingSegmentId = none ∧
      (step (.synthResolve 0 [])
        (run [.processText "hi", .analysisResolve [segA, segB],
              .clickPlayAll] initState)).pendingSynth = [] ∧
      (step (.synthResolve 0 [])
        (run [.processText "hi", .analysisResolve [segA, segB],
              .clickPlayAll] initState)).synthCalls
        = (run [.processText "hi", .analysisResolve [segA, segB],
              .clickPlayAll] initState).synthCalls) ∧
    (step (.synthResolve 0 oddPcm)
        (run [.processText "hi", .analysisResolve [segA, segB],
              .clickPlayAll] initState)).phase = .loadingAudio ∧
    (step (.synthResolve 0 oddPcm)
        (run [.processText "hi", .analysisResolve [segA, segB],
              .clickPlayAll] initState)).playingSegmentId = some segB.id ∧
    (step (.synthResolve 0 oddPcm)
        (run [.processText "hi", .analysisResolve [segA, segB],
              .clickPlayAll] initState)).pendingSynth
      = [] ++ [⟨(run [.processText "hi", .analysisResolve [segA, segB],
              .clickPlayAll] initState).nextTok, segB, true,
            (run [.processText "hi", .analysisResolve [segA, segB],
              .clickPlayAll] initState).selectedVoice⟩] :=
  ⟨(c2_amended_decode_failure _ 0 ⟨0, segA, true, "Kore"⟩ [] []
      (by decide)).1 rfl,
   (c2_amended_decode_failure _ 0 ⟨0, segA, true, "Kore"⟩ [] oddPcm
      (by decide)).2.2.1 0 segB
    (by decide) (by decide) (by decide) (by decide) (by decide) (by decide)⟩

theorem srcInvCore_kill (ref2 : Option Nat) (sources : List Source)
    (ref : Option Nat) (nextSrc : Nat) (n : Nat)
    (h : SrcInvCore sources ref nextSrc) (hn : ref = some n) :
    SrcInvCore (killSource sources n) ref2 nextSrc ∧
      ∀ src ∈ killSource sources n, src.live = false := by
  obtain ⟨h1, h2, h3, h4, h5⟩ := h
  have hnl : ∀ src ∈ killSource sources n, src.live = false := by
    intro src hmem
    rcases mem_killSource _ _ _ hmem with ⟨hd, _, _⟩ | ⟨hm, hne⟩
    · exact hd
    · cases hl : src.live
      · rfl
      · have := h5 src hm hl
        rw [hn] at this
        injection this with this
        exact absurd this.symm hne
  refine ⟨⟨?_, ?_, ?_, ?_, ?_⟩, hnl⟩
  · intro src hmem
    rcases mem_killSource _ _ _ hmem with ⟨_, _, orig, ho, hs⟩ | ⟨hm, _⟩
    · rw [← hs]; exact h1 orig ho
    · exact h1 src hm
  · rw [killSource_sid_map]; exact h2
  · intro src hmem _
    rcases mem_killSource _ _ _ hmem with ⟨_, ha, _⟩ | ⟨hm, _⟩
    · exact ha
    · exact h3 src hm (hnl src hmem)
  · intro src hmem hl
    rw [hnl src hmem] at hl
    cases hl
  · intro src hmem hl
    rw [hnl src hmem] at hl
    cases hl

theorem srcInv_stopCurrent (s : AppState) (h : SrcInv s) :
    SrcInv (stopCurrentSource s) ∧
      ∀ src ∈ (stopCurrentSource s).sources, src.live = false := by
  rcases href : s.activeSourceRef with _ | n
  · have hnl : ∀ src ∈ s.sources, src.live = false := by
      intro src hmem
      cases hl : src.live
      · rfl
      · have := h.2.2.2.2 src hmem hl
        rw [href] at this
        cases this
    constructor
    · simp only [stopCurrentSource, href]; exact h
    · simp only [stopCurrentSource, href]; exact hnl
  · have hk := srcInvCore_kill (some n) s.sources s.activeSourceRef
      s.nextSrc n h href
    constructor
    · simp only [SrcInv, stopCurrentSource, href]; exact hk.1
    · simp only [stopCurrentSource, href]; exact hk.2

theorem srcInv_stopPlayback (s : AppState) (h : SrcInv s) :
    SrcInv (stopPlaybackFn s) := by
  rcases href : s.activeSourceRef with _ | n
  · simp only [SrcInv, stopPlaybackFn, href]
    obtain ⟨h1, h2, h3, h4, h5⟩ := h
    refine ⟨h1, h2, h3, h4, ?_⟩
    intro src hmem hl
    have := h5 src hmem hl
    rw [href] at this
    cases this
  · have hk := srcInvCore_kill (none : Option Nat) s.sources
      s.activeSourceRef s.nextSrc n h href
    simp only [SrcInv, stopPlaybackFn, href]
    exact hk.1

theorem srcInv_start (seg : TextSegment) (auto : Bool) (s : AppState)
    (h : SrcInv s) (hnl : ∀ src ∈ s.sources, src.live = false) :
    SrcInv (startSource seg auto s) := by
  obtain ⟨h1, h2, h3, h4, h5⟩ := h
  refine ⟨?_, ?_, ?_, ?_, ?_⟩ <;>
    simp only [startSource]
  · intro src hmem
    rcases List.mem_append.mp hmem with hm | hm
    · exact Nat.lt_succ_of_lt (h1 src hm)
    · simp only [List.mem_singleton] at hm
      rw [hm]
      exact Nat.lt_succ_self _
  · rw [List.map_append]
    rw [List.nodup_append]
    refine ⟨h2, List.nodup_singleton _, ?_⟩
    intro a ha hb
    simp only [List.map_cons, List.map_nil, List.mem_singleton] at hb
    rcases List.mem_map.mp ha with ⟨orig, ho, hs⟩
    have := h1 orig ho
    rw [hs] at this
    rw [hb] at this
    exact absurd this (lt_irrefl _)
  · intro src hmem hdead
    rcases List.mem_append.mp hmem with hm | hm
    · exact h3 src hm hdead
    · simp only [List.mem_singleton] at hm
      rw [hm] at hdead
      cases hdead
  · intro src hmem hlive
    rcases List.mem_append.mp hmem with hm | hm
    · rw [hnl src hm] at hlive
      cases hlive
    · simp only [List.mem_singleton] at hm
      rw [hm]
      simp
  · intro src hmem hlive
    rcases List.mem_append.mp hmem with hm | hm
    · rw [hnl src hm] at hlive
      cases hlive
    · simp only [List.mem_singleton] at hm
      rw [hm]

theorem srcInv_engine (fuel : Nat) :
    ∀ c s, SrcInv s → SrcInv (engine fuel c s) := by
  induction fuel with
  | zero => intro c s h; exact h
  | succ n ih =>
    intro c s h
    rw [engine_succ]
    cases c with
    | seg sg auto =>
      simp only [engineStep]
      rcases hl : lookupCache s.audioCache sg.id with _ | pcm
      · simp only [hl]
        exact h
      · simp only [hl]
        by_cases hp : pcm = []
        · rw [if_pos hp]
          exact h
        · rw [if_neg hp]
          exact ih _ _ h
    | fin sg auto pcm =>
      simp only [engineStep]
      have hinv : SrcInv ({ s with phase := .playing } : AppState) := h
      have hstop := srcInv_stopCurrent _ hinv
      rcases hd : decodeAudioData pcm with _ | buf
      · simp only [hd]
        cases auto
        · simp only [Bool.false_eq_true, if_false]
          exact hstop.1
        · simp only [if_true]
          exact ih _ _ hstop.1
      · simp only [hd]
        exact srcInv_start sg auto _ hstop.1 hstop.2
    | nxt x =>
      simp only [engineStep]
      rcases hi : findSegIdx s.segments x with _ | i
      · simp only [hi]
        exact h
      · simp only [hi]
        rcases hn : nthSeg s.segments (i + 1) with _ | t
        · simp only [hn]
          exact h
        · simp only [hn]
          exact ih _ _ h

theorem srcInv_step (e : Event) (s : AppState) (h : SrcInv s) :
    SrcInv (step e s) := by
  cases e with
  | clickPlayPause sg =>
    simp only [step]
    by_cases hc : s.playingSegmentId = some sg.id ∧ s.phase = .playing
    · rw [if_pos hc]
      exact srcInv_stopPlayback s h
    · rw [if_neg hc]
      exact srcInv_engine _ _ _ h
  | clickPlayAll =>
    simp only [step]
    rcases hs : s.segments with _ | ⟨first, rest⟩
    · exact h
    · exact srcInv_engine _ _ _ h
  | clickStop => exact srcInv_stopPlayback s h
  | clickClear => exact srcInv_stopPlayback s h
  | changeVoice v =>
    simp only [step]
    by_cases hc : v = s.selectedVoice
    · rw [if_pos hc]; exact h
    · rw [if_neg hc]
      exact srcInv_stopPlayback _ h
  | processText t =>
    simp only [step]
    by_cases hc : isBlankText t = true
    · rw [if_pos hc]; exact h
    · rw [if_neg hc]
      exact srcInv_stopPlayback s h
  | analysisResolve segs => exact h
  | analysisFail => exact h
  | synthResolve tok payload =>
    simp only [step]
    rcases ht : takePending s.pendingSynth tok with _ | ⟨q, rest⟩
    · exact h
    · simp only
      by_cases hp : payload = []
      · rw [if_pos hp]
        exact h
      · rw [if_neg hp]
        exact srcInv_engine _ _ _ h
  | synthFail tok =>
    simp only [step]
    rcases ht : takePending s.pendingSynth tok with _ | ⟨q, rest⟩
    · exact h
    · simp only
      exact h
  | sourceEnded n =>
    simp only [step]
    rcases hf : findSource s.sources n with _ | src
    · exact h
    · simp only
      have hmem := findSource_mem s.sources n src hf
      cases hl : src.live with
      | false =>
        rw [if_neg Bool.false_ne_true]
        exact h
      | true =>
        rw [if_pos rfl]
        rcases ha : src.armedOnended with _ | ⟨sg, auto⟩
        · exact absurd ha (h.2.2.2.1 src hmem.1 hl)
        · have hk := srcInvCore_kill (none : Option Nat) s.sources
            s.activeSourceRef s.nextSrc n h
            (by rw [h.2.2.2.2 src hmem.1 hl, hmem.2])
          cases auto
          · simp only [Bool.false_eq_true, if_false]
            exact hk.1
          · simp only [if_true]
            exact srcInv_engine _ _ _ hk.1

theorem run_cons (e : Event) (evs : List Event) (s : AppState) :
    run (e :: evs) s = run evs (step e s) := rfl

theorem srcInv_run (evs : List Event) :
    ∀ s, SrcInv s → SrcInv (run evs s) := by
  induction evs with
  | nil => intro s h; exact h
  | cons e evs ih =>
    intro s h
    rw [run_cons]
    exact ih _ (srcInv_step e s h)

theorem srcInv_init : SrcInv initState := by
  refine ⟨?_, ?_, ?_, ?_, ?_⟩ <;> simp [initState, SrcInvCore]

/-- Among sources that must all carry the referenced id, at most one can
be live when ids are distinct. -/
theorem live_filter_le_one (l : List Source) (ref : Option Nat)
    (hnd : (l.map Source.sid).Nodup)
    (hl : ∀ src ∈ l, src.live = true → ref = some src.sid) :
    (l.filter (fun src => src.live)).length ≤ 1 := by
  induction l with
  | nil => simp
  | cons a l ih =>
    simp only [List.map_cons, List.nodup_cons] at hnd
    rcases hd : a.live with _ | _
    · rw [List.filter_cons_of_neg (by simp [hd])]
      exact ih hnd.2 (fun src hm h => hl src (List.mem_cons_of_mem a hm) h)
    · rw [List.filter_cons_of_pos (by simp [hd])]
      have hrest : l.filter (fun src => src.live) = [] := by
        rw [List.filter_eq_nil_iff]
        intro b hb hbl
        have h1 := hl a (List.mem_cons_self a l) hd
        have h2 := hl b (List.mem_cons_of_mem a hb) hbl
        rw [h1] at h2
        injection h2 with h2
        exact hnd.1 (h2 ▸ List.mem_map_of_mem Source.sid hb)
      rw [hrest]
      exact Nat.le_refl 1

theorem sourceEnded_dead_noop (s : AppState) (n : Nat) (src : Source)
    (hf : findSource s.sources n = some src) (hd : src.live = false) :
    step (.sourceEnded n) s = s := by
  simp only [step, hf]
  rw [hd, if_neg Bool.false_ne_true]

/-- C3: in every reachable state, at most one Playback Engine source is
live; every stopped source (stopped-to-replace or explicitly stopped)
is disarmed; and the natural-completion event of a stopped source is a
no-op — it never fires its completion notification. -/
theorem c3_source_exclusivity (evs : List Event) :
    ((run evs initState).sources.filter (fun src => src.live)).length ≤ 1 ∧
    (∀ src ∈ (run evs initState).sources,
      src.live = false → src.armedOnended = none) ∧
    (∀ n src, findSource (run evs initState).sources n = some src →
      src.live = false →
      step (.sourceEnded n) (run evs initState) = run evs initState) := by
  have h := srcInv_run evs initState srcInv_init
  exact ⟨live_filter_le_one _ ((run evs initState).activeSourceRef)
      h.2.1 h.2.2.2.2,
    h.2.2.1,
    fun n src hf hd => sourceEnded_dead_noop _ n src hf hd⟩

/-- Witness for C3: after play then explicit stop, the single source is
stopped and disarmed, and its completion event is a no-op. -/
theorem c3_source_exclusivity_witness :
    (((run [.processText "hi", .analysisResolve [segA], .clickPlayPause segA,
            .synthResolve 0 goodPcm, .clickStop] initState).sources.filter
        (fun src => src.live)).length ≤ 1) ∧
    step (.sourceEnded 0)
        (run [.processText "hi", .analysisResolve [segA], .clickPlayPause segA,
              .synthResolve 0 goodPcm, .clickStop] initState)
      = run [.processText "hi", .analysisResolve [segA], .clickPlayPause segA,
              .synthResolve 0 goodPcm, .clickStop] initState :=
  ⟨(c3_source_exclusivity [.processText "hi", .analysisResolve [segA],
      .clickPlayPause segA, .synthResolve 0 goodPcm, .clickStop]).1,
   (c3_source_exclusivity [.processText "hi", .analysisResolve [segA],
      .clickPlayPause segA, .synthResolve 0 goodPcm, .clickStop]).2.2
      0 ⟨0, false, none⟩ (by decide) rfl⟩

/-- C4 (amended): in every reachable state, every live source is the one
held by the active handle — so whenever a new source is started the
previous one has already been stopped; the claimed equivalence
"handle non-null iff Playing" does not hold (see the counterexample):
a live source persists into LoadingAudio when another segment is
requested. -/
theorem c4_live_source_is_referenced (evs : List Event) :
    ∀ src ∈ (run evs initState).sources, src.live = true →
      (run evs initState).activeSourceRef = some src.sid :=
  (srcInv_run evs initState srcInv_init).2.2.2.2

/-- Witness for C4 (amended): while `segA` plays, the live source with
id 0 is exactly the referenced one. -/
theorem c4_live_source_is_referenced_witness :
    (run [.processText "hi", .analysisResolve [segA], .clickPlayPause segA,
          .synthResolve 0 goodPcm] initState).activeSourceRef = some 0 :=
  c4_live_source_is_referenced
    [.processText "hi", .analysisResolve [segA], .clickPlayPause segA,
     .synthResolve 0 goodPcm]
    ⟨0, true, some (segA, false)⟩ (by decide) rfl

theorem lookup_insert (c : List (String × List Nat)) (key : String)
    (v : List Nat) (k : String) :
    lookupCache (insertCache c key v) k
      = if key = k then some v else lookupCache c k := by
  induction c with
  | nil => rfl
  | cons a c ih =>
    rcases a with ⟨ak, aw⟩
    by_cases hak : ak = key
    · rw [show insertCache ((ak, aw) :: c) key v = (key, v) :: c from by
        simp [insertCache, hak]]
      by_cases hk : key = k
      · simp [lookupCache, hk]
      · simp only [lookupCache, if_neg hk]
        rw [if_neg (by rw [hak]; exact hk)]
    · rw [show insertCache ((ak, aw) :: c) key v
          = (ak, aw) :: insertCache c key v from by simp [insertCache, hak]]
      by_cases hk2 : ak = k
      · have : ¬ key = k := by
          intro he
          exact hak (by rw [he, hk2])
        simp [lookupCache, hk2, this]
      · simp only [lookupCache, if_neg hk2]
        exact ih

theorem engine_audioCache (fuel : Nat) :
    ∀ c s, (engine fuel c s).audioCache = s.audioCache := by
  induction fuel with
  | zero => intro c s; rfl
  | succ n ih =>
    intro c s
    rw [engine_succ]
    cases c with
    | seg sg auto =>
      simp only [engineStep]
      rcases hl : lookupCache s.audioCache sg.id with _ | pcm
      · simp only [hl]
        rfl
      · simp only [hl]
        by_cases hp : pcm = []
        · rw [if_pos hp]
          rfl
        · rw [if_neg hp, ih]
    | fin sg auto pcm =>
      simp only [engineStep]
      rcases hd : decodeAudioData pcm with _ | buf
      · simp only [hd]
        cases auto
        · simp only [Bool.false_eq_true, if_false, idleReset]
          simp
        · simp only [if_true, ih]
          simp
      · simp only [hd, startSource]
        simp
    | nxt x =>
      simp only [engineStep]
      rcases hi : findSegIdx s.segments x with _ | i
      · simp only [hi, idleReset]
      · simp only [hi]
        rcases hn : nthSeg s.segments (i + 1) with _ | t
        · simp only [hn, idleReset]
        · simp only [hn, ih]

theorem engine_fin_single_no_synth (fuel : Nat) (sg : TextSegment)
    (pcm : List Nat) (s : AppState) :
    (engine fuel (.fin sg false pcm) s).synthCalls = s.synthCalls ∧
    (engine fuel (.fin sg false pcm) s).pendingSynth = s.pendingSynth := by
  cases fuel with
  | zero => exact ⟨rfl, rfl⟩
  | succ n =>
    rw [engine_succ]
    simp only [engineStep]
    rcases hd : decodeAudioData pcm with _ | buf
    · simp only [hd, Bool.false_eq_true, if_false, idleReset]
      simp
    · simp only [hd, startSource]
      simp

theorem step_cache_presence (e : Event) (s : AppState) (k : String)
    (hkeep : keepsCache e = true)
    (hpres : ∃ w, lookupCache s.audioCache k = some w ∧ w ≠ []) :
    ∃ w, lookupCache (step e s).audioCache k = some w ∧ w ≠ [] := by
  cases e with
  | clickPlayPause sg =>
    have hc : (step (.clickPlayPause sg) s).audioCache = s.audioCache := by
      simp only [step]
      split
      · simp
      · rw [engine_audioCache]
    rw [hc]; exact hpres
  | clickPlayAll =>
    have hc : (step .clickPlayAll s).audioCache = s.audioCache := by
      simp only [step]
      rcases hs : s.segments with _ | ⟨first, rest⟩
      · rfl
      · rw [engine_audioCache]
    rw [hc]; exact hpres
  | clickStop =>
    have hc : (step .clickStop s).audioCache = s.audioCache := by simp [step]
    rw [hc]; exact hpres
  | clickClear => exact Bool.noConfusion hkeep
  | changeVoice v => exact Bool.noConfusion hkeep
  | processText t => exact Bool.noConfusion hkeep
  | analysisResolve segs => exact Bool.noConfusion hkeep
  | analysisFail => exact hpres
  | synthResolve tok payload =>
    simp only [step]
    rcases ht : takePending s.pendingSynth tok with _ | ⟨q, rest⟩
    · exact hpres
    · simp only
      by_cases hp : payload = []
      · rw [if_pos hp]
        exact hpres
      · rw [if_neg hp, engine_audioCache]
        simp only
        rw [lookup_insert]
        by_cases hk : q.segment.id = k
        · rw [if_pos hk]
          exact ⟨payload, rfl, hp⟩
        · rw [if_neg hk]
          exact hpres
  | synthFail tok =>
    have hc : (step (.synthFail tok) s).audioCache = s.audioCache := by
      simp only [step]
      rcases ht : takePending s.pendingSynth tok with _ | ⟨q, rest⟩
      · rfl
      · simp [idleReset]
    rw [hc]; exact hpres
  | sourceEnded n =>
    have hc : (step (.sourceEnded n) s).audioCache = s.audioCache := by
      simp only [step]
      rcases hf : findSource s.sources n with _ | src
      · rfl
      · simp only
        split
        · rcases ha : src.armedOnended with _ | ⟨sg, auto⟩
          · simp only [ha]
          · simp only [ha]
            cases auto
            · simp [idleReset]
            · simp only [if_true]
              rw [engine_audioCache]
        · rfl
    rw [hc]; exact hpres

theorem run_cache_presence (evs : List Event) :
    ∀ s k, (∀ e ∈ evs, keepsCache e = true) →
    (∃ w, lookupCache s.audioCache k = some w ∧ w ≠ []) →
    ∃ w, lookupCache (run evs s).audioCache k = some w ∧ w ≠ [] := by
  induction evs with
  | nil => intro s k _ hpres; exact hpres
  | cons e evs ih =>
    intro s k hkeep hpres
    rw [run_cons]
    exact ih _ k (fun f hf => hkeep f (List.mem_cons_of_mem e hf))
      (step_cache_presence e s k (hkeep e (List.mem_cons_self e evs)) hpres)

theorem clickPlay_hit_no_synth (s : AppState) (seg : TextSegment)
    (w : List Nat) (hw : lookupCache s.audioCache seg.id = some w)
    (hne : w ≠ []) :
    (step (.clickPlayPause seg) s).synthCalls = s.synthCalls ∧
    (step (.clickPlayPause seg) s).pendingSynth = s.pendingSynth := by
  simp only [step]
  by_cases hc : s.playingSegmentId = some seg.id ∧ s.phase = .playing
  · rw [if_pos hc]
    simp
  · rw [if_neg hc, stdFuel_succ, engine_seg_hit _ _ _ _ w hw hne]
    have h := engine_fin_single_no_synth (3 * s.segments.length + 2) seg w
      { s with playingSegmentId := some seg.id }
    rw [h.1, h.2]
    exact ⟨rfl, rfl⟩

/-- C6: once the synthesis call for segment S resolves successfully (the
cache-populating part of a successful play), and as long as no event
clears the cache or replaces the segment list (same voice, same list),
the payload for S stays in the cache and a later play request for S
invokes no further synthesis: the call counter and the set of in-flight
synthesis requests are unchanged. -/
theorem c6_cache_hit_no_resynthesis (evs1 evs2 : List Event) (tok : Nat)
    (q : PendingSynth) (rest : List PendingSynth) (payload : List Nat)
    (htake : takePending (run evs1 initState).pendingSynth tok = some (q, rest))
    (hne : payload ≠ [])
    (hkeep : ∀ e ∈ evs2, keepsCache e = true) :
    (∃ w, lookupCache (run evs2 (step (.synthResolve tok payload)
        (run evs1 initState))).audioCache q.segment.id = some w ∧ w ≠ []) ∧
    (step (.clickPlayPause q.segment)
        (run evs2 (step (.synthResolve tok payload)
          (run evs1 initState)))).synthCalls
      = (run evs2 (step (.synthResolve tok payload)
          (run evs1 initState))).synthCalls ∧
    (step (.clickPlayPause q.segment)
        (run evs2 (step (.synthResolve tok payload)
          (run evs1 initState)))).pendingSynth
      = (run evs2 (step (.synthResolve tok payload)
          (run evs1 initState))).pendingSynth := by
  have hres : ∃ w, lookupCache (step (.synthResolve tok payload)
      (run evs1 initState)).audioCache q.segment.id = some w ∧ w ≠ [] := by
    simp only [step, htake]
    rw [if_neg hne, engine_audioCache]
    simp only
    rw [lookup_insert, if_pos rfl]
    exact ⟨payload, rfl, hne⟩
  have hpres := run_cache_presence evs2 _ q.segment.id hkeep hres
  rcases hpres with ⟨w, hw, hwne⟩
  have h := clickPlay_hit_no_synth _ q.segment w hw hwne
  exact ⟨⟨w, hw, hwne⟩, h.1, h.2⟩

/-- Witness for C6: after the synthesis for `segA` resolves during a
play request, a stop and a later replay of `segA` trigger no further
synthesis call. -/
theorem c6_cache_hit_no_resynthesis_witness :
    (∃ w, lookupCache (run [Event.clickStop]
        (step (.synthResolve 0 goodPcm)
          (run [.processText "hi", .analysisResolve [segA],
                .clickPlayPause segA] initState))).audioCache
        (⟨0, segA, false, "Kore"⟩ : PendingSynth).segment.id = some w ∧ w ≠ []) ∧
    (step (.clickPlayPause (⟨0, segA, false, "Kore"⟩ : PendingSynth).segment)
        (run [Event.clickStop] (step (.synthResolve 0 goodPcm)
          (run [.processText "hi", .analysisResolve [segA],
                .clickPlayPause segA] initState)))).synthCalls
      = (run [Event.clickStop] (step (.synthResolve 0 goodPcm)
          (run [.processText "hi", .analysisResolve [segA],
                .clickPlayPause segA] initState))).synthCalls ∧
    (step (.clickPlayPause (⟨0, segA, false, "Kore"⟩ : PendingSynth).segment)
        (run [Event.clickStop] (step (.synthResolve 0 goodPcm)
          (run [.processText "hi", .analysisResolve [segA],
                .clickPlayPause segA] initState)))).pendingSynth
      = (run [Event.clickStop] (step (.synthResolve 0 goodPcm)
          (run [.processText "hi", .analysisResolve [segA],
                .clickPlayPause segA] initState))).pendingSynth :=
  c6_cache_hit_no_resynthesis
    [.processText "hi", .analysisResolve [segA], .clickPlayPause segA]
    [Event.clickStop] 0 ⟨0, segA, false, "Kore"⟩ [] goodPcm
    (by decide) (by decide) (by decide)

theorem insertCache_fresh (c : List (String × List Nat)) (key : String)
    (v : List Nat) (h : lookupCache c key = none) :
    insertCache c key v = c ++ [(key, v)] := by
  induction c with
  | nil => rfl
  | cons a c ih =>
    rcases a with ⟨ak, aw⟩
    simp only [lookupCache] at h
    by_cases hak : ak = key
    · rw [if_pos hak] at h
      cases h
    · rw [if_neg hak] at h
      simp only [insertCache, if_neg hak, List.cons_append]
      rw [ih h]

theorem lookupCache_cacheOf_none (done : List (TextSegment × List Nat))
    (k : String) (h : k ∉ done.map fun pr => pr.1.id) :
    lookupCache (cacheOf done) k = none := by
  induction done with
  | nil => rfl
  | cons a done ih =>
    simp only [List.map_cons, List.mem_cons, not_or] at h
    simp only [cacheOf, List.map_cons, lookupCache]
    rw [if_neg (fun he => h.1 he.symm)]
    exact ih h.2

theorem cacheOf_append (done : List (TextSegment × List Nat))
    (x : TextSegment × List Nat) :
    cacheOf (done ++ [x]) = cacheOf done ++ [(x.1.id, x.2)] := by
  simp [cacheOf]

theorem findSegIdx_middle (A : List TextSegment) (cur : TextSegment)
    (B : List TextSegment) (h : ∀ t ∈ A, t.id ≠ cur.id) :
    findSegIdx (A ++ cur :: B) cur.id = some A.length := by
  induction A with
  | nil => simp [findSegIdx]
  | cons a A ih =>
    simp only [List.cons_append, findSegIdx, List.append_eq]
    rw [if_neg (h a (List.mem_cons_self a A))]
    rw [ih fun t ht => h t (List.mem_cons_of_mem a ht)]
    rfl

theorem nthSeg_middle (A : List TextSegment) (cur : TextSegment)
    (B : List TextSegment) :
    nthSeg (A ++ cur :: B) (A.length + 1) = nthSeg B 0 := by
  induction A with
  | nil => rfl
  | cons a A ih => simpa [nthSeg] using ih

theorem findSource_skip (l1 l2 : List Source) (n : Nat)
    (h : ∀ src ∈ l1, src.sid ≠ n) :
    findSource (l1 ++ l2) n = findSource l2 n := by
  induction l1 with
  | nil => rfl
  | cons a l1 ih =>
    simp only [List.cons_append, findSource]
    rw [if_neg (h a (List.mem_cons_self a l1))]
    exact ih fun src hs => h src (List.mem_cons_of_mem a hs)

theorem deadSources_sid_lt (n : Nat) :
    ∀ src ∈ deadSources n, src.sid < n := by
  intro src hmem
  simp only [deadSources, List.mem_map] at hmem
  rcases hmem with ⟨i, hi, he⟩
  rw [← he]
  exact List.mem_range.mp hi

theorem killSource_skip (l : List Source) (n : Nat)
    (h : ∀ src ∈ l, src.sid ≠ n) : killSource l n = l := by
  induction l with
  | nil => rfl
  | cons a l ih =>
    simp only [killSource]
    rw [if_neg (h a (List.mem_cons_self a l))]
    rw [ih fun src hs => h src (List.mem_cons_of_mem a hs)]

theorem killSource_append (l1 l2 : List Source) (n : Nat) :
    killSource (l1 ++ l2) n = killSource l1 n ++ killSource l2 n := by
  induction l1 with
  | nil => rfl
  | cons a l1 ih => simp [killSource, ih]

theorem deadSources_succ (n : Nat) :
    deadSources (n + 1) = deadSources n ++ [⟨n, false, none⟩] := by
  simp [deadSources, List.range_succ]

theorem stopCurrentSource_of_none (s : AppState)
    (h : s.activeSourceRef = none) : stopCurrentSource s = s := by
  simp [stopCurrentSource, h]

theorem cycle_resolve (segs : List TextSegment)
    (done : List (TextSegment × List Nat)) (cur : TextSegment) (p : List Nat)
    (hfresh : cur.id ∉ done.map fun pr => pr.1.id)
    (hp : p ≠ []) (hdec : (decodeAudioData p).isSome) :
    step (.synthResolve done.length p) (midState segs done cur)
      = playingState segs done cur p := by
  have htake : takePending (midState segs done cur).pendingSynth done.length
      = some (⟨done.length, cur, true, "Kore"⟩, []) := by
    simp [midState, takePending]
  simp only [step, htake]
  rw [if_neg hp, stdFuel_succ, engine_fin_ok _ _ _ _ _ hdec,
    stopCurrentSource_of_none _ rfl]
  simp [startSource, playingState, midState,
    insertCache_fresh _ _ p (lookupCache_cacheOf_none done cur.id hfresh),
    cacheOf_append]

theorem playingState_find (segs : List TextSegment)
    (done : List (TextSegment × List Nat)) (cur : TextSegment) (p : List Nat) :
    findSource (playingState segs done cur p).sources done.length
      = some ⟨done.length, true, some (cur, true)⟩ := by
  simp only [playingState]
  rw [findSource_skip _ _ _
    (fun src hs => Nat.ne_of_lt (deadSources_sid_lt _ src hs))]
  simp [findSource]

theorem playingState_kill (segs : List TextSegment)
    (done : List (TextSegment × List Nat)) (cur : TextSegment) (p : List Nat) :
    killSource (playingState segs done cur p).sources done.length
      = deadSources (done.length + 1) := by
  simp only [playingState]
  rw [killSource_append,
    killSource_skip _ _ (fun src hs => Nat.ne_of_lt (deadSources_sid_lt _ src hs)),
    deadSources_succ]
  simp [killSource]

theorem cycle_ended_last (segs : List TextSegment)
    (done : List (TextSegment × List Nat)) (cur : TextSegment) (p : List Nat)
    (hsplit : segs = (done.map fun pr => pr.1) ++ [cur])
    (hA : ∀ t ∈ done.map fun pr => pr.1, t.id ≠ cur.id) :
    step (.sourceEnded done.length) (playingState segs done cur p)
      = endState segs (done ++ [(cur, p)]) := by
  simp only [step, playingState_find, if_true]
  simp only [playingState_kill]
  rw [stdFuel_succ]
  rw [engine_nxt_last _ _ done.length _ ?h1 ?h2]
  case h1 =>
    simp only [playingState]
    rw [hsplit, findSegIdx_middle _ _ _ hA, List.length_map]
  case h2 =>
    simp only [playingState]
    rw [hsplit, show done.length = (done.map fun pr => pr.1).length from
        (List.length_map _ _).symm,
      nthSeg_middle]
    rfl
  simp [idleReset, endState, playingState, List.length_append]

theorem cycle_ended_next (segs : List TextSegment)
    (done : List (TextSegment × List Nat)) (cur : TextSegment) (p : List Nat)
    (nxt : TextSegment) (restSegs : List TextSegment)
    (hsplit : segs = (done.map fun pr => pr.1) ++ cur :: nxt :: restSegs)
    (hA : ∀ t ∈ done.map fun pr => pr.1, t.id ≠ cur.id)
    (hnxt : nxt.id ∉ (done ++ [(cur, p)]).map fun pr => pr.1.id) :
    step (.sourceEnded done.length) (playingState segs done cur p)
      = midState segs (done ++ [(cur, p)]) nxt := by
  simp only [step, playingState_find, if_true]
  simp only [playingState_kill]
  rw [stdFuel_succ]
  rw [engine_nxt_found _ _ done.length nxt _ ?h1 ?h2]
  case h1 =>
    simp only [playingState]
    rw [hsplit, findSegIdx_middle _ _ _ hA, List.length_map]
  case h2 =>
    simp only [playingState]
    rw [hsplit, show done.length = (done.map fun pr => pr.1).length from
        (List.length_map _ _).symm,
      nthSeg_middle]
    rfl
  simp only [playingState]
  rw [show (3 * segs.length + 2) = (3 * segs.length + 1) + 1 from rfl]
  rw [engine_seg_miss _ _ _ _ ?h3]
  case h3 =>
    simp only
    exact lookupCache_cacheOf_none _ _ hnxt
  simp [issueSynth, midState, playingState, List.length_append,
    cacheOf_append]

theorem nodup_middle_extract (A : List String) (x : String) (B : List String)
    (h : (A ++ x :: B).Nodup) : x ∉ A ∧ x ∉ B ∧ (A ++ B).Nodup := by
  rw [List.nodup_middle, List.nodup_cons, List.mem_append] at h
  push_neg at h
  exact ⟨h.1.1, h.1.2, h.2⟩

theorem segs_ids_split (done : List (TextSegment × List Nat))
    (cur : TextSegment) (restSegs : List TextSegment)
    (segs : List TextSegment)
    (hsplit : segs = (done.map fun pr => pr.1) ++ cur :: restSegs) :
    segs.map TextSegment.id
      = (done.map fun pr => pr.1.id) ++ cur.id :: restSegs.map TextSegment.id := by
  rw [hsplit]
  simp [List.map_append, List.map_map, Function.comp_def]

theorem fresh_of_not_mem_ids (done : List (TextSegment × List Nat))
    (x : String) (h : x ∉ done.map fun pr => pr.1.id) :
    ∀ t ∈ done.map fun pr => pr.1, t.id ≠ x := by
  intro t ht he
  rcases List.mem_map.mp ht with ⟨pr, hpr, hte⟩
  apply h
  rw [← he, ← hte]
  exact List.mem_map_of_mem (fun pr => pr.1.id) hpr

theorem chain_run (restPairs : List (TextSegment × List Nat)) :
    ∀ (done : List (TextSegment × List Nat)) (cur : TextSegment)
      (p : List Nat) (segs : List TextSegment),
    segs = (done.map fun pr => pr.1) ++ cur :: (restPairs.map fun pr => pr.1) →
    (segs.map TextSegment.id).Nodup →
    p ≠ [] → (decodeAudioData p).isSome →
    (∀ pr ∈ restPairs, pr.2 ≠ [] ∧ (decodeAudioData pr.2).isSome) →
    run (chainEvents done.length (p :: restPairs.map fun pr => pr.2))
        (midState segs done cur)
      = endState segs (done ++ (cur, p) :: restPairs) := by
  induction restPairs with
  | nil =>
    intro done cur p segs hsplit hnd hp hdec _
    have hids := segs_ids_split done cur _ segs hsplit
    rw [hids] at hnd
    have hext := nodup_middle_extract _ _ _ hnd
    have hA := fresh_of_not_mem_ids done cur.id hext.1
    have hsplit2 : segs = (done.map fun pr => pr.1) ++ [cur] := by
      simpa using hsplit
    show step (.sourceEnded done.length)
        (step (.synthResolve done.length p) (midState segs done cur)) = _
    rw [cycle_resolve segs done cur p hext.1 hp hdec,
      cycle_ended_last segs done cur p hsplit2 hA]
  | cons nxtPair restPairs ih =>
    rcases nxtPair with ⟨nt, np⟩
    intro done cur p segs hsplit hnd hp hdec hrest
    simp only [List.map_cons] at hsplit
    have hids := segs_ids_split done cur _ segs hsplit
    rw [hids] at hnd
    have hext := nodup_middle_extract _ _ _ hnd
    have hA := fresh_of_not_mem_ids done cur.id hext.1
    -- distinctness facts for the next segment
    have hnd2 : ((done.map fun pr => pr.1.id)
        ++ nt.id :: (restPairs.map fun pr => pr.1).map TextSegment.id).Nodup := by
      have := hext.2.2
      simpa [List.map_map, Function.comp_def] using this
    have hext2 := nodup_middle_extract _ _ _ hnd2
    have hcurnt : cur.id ≠ nt.id := by
      intro he
      apply hext.2.1
      rw [he]
      simp
    have hnxt : nt.id ∉ (done ++ [(cur, p)]).map fun pr => pr.1.id := by
      rw [List.map_append, List.mem_append]
      rintro (h | h)
      · exact hext2.1 h
      · simp only [List.map_cons, List.map_nil, List.mem_singleton] at h
        exact hcurnt h.symm
    show run (chainEvents (done.length + 1) (np :: restPairs.map fun pr => pr.2))
        (step (.sourceEnded done.length)
          (step (.synthResolve done.length p) (midState segs done cur))) = _
    rw [cycle_resolve segs done cur p hext.1 hp hdec,
      cycle_ended_next segs done cur p nt _ hsplit hA hnxt]
    have hlen : done.length + 1 = (done ++ [(cur, p)]).length := by
      simp
    rw [hlen,
      ih (done ++ [(cur, p)]) nt np segs
        (by rw [hsplit]; simp)
        (by rw [hids]; exact hnd)
        (hrest (nt, np) (List.mem_cons_self _ _)).1
        (hrest (nt, np) (List.mem_cons_self _ _)).2
        (fun pr hpr => hrest pr (List.mem_cons_of_mem _ hpr))]
    simp

/-- C8: given no errors, `playAll()` over a segment list of N segments
(with their synthesized payloads) performs exactly N
synthesis-or-cache-lookup, decode and play cycles, one per segment in
list order starting from the first (witnessed by the played log and the
synthesis-call counter), and then returns the session to Idle with no
active segment; `playAll()` on an empty segment list is a no-op that
changes no state. -/
theorem c8_playAll_chain (pairs : List (TextSegment × List Nat))
    (hnd : (((pairs.map fun pr => pr.1).map TextSegment.id)).Nodup)
    (hok : ∀ pr ∈ pairs, pr.2 ≠ [] ∧ (decodeAudioData pr.2).isSome) :
    (run (playAllTrace pairs)
      (startState (pairs.map fun pr => pr.1))).phase = .idle ∧
    (run (playAllTrace pairs)
      (startState (pairs.map fun pr => pr.1))).playingSegmentId = none ∧
    (run (playAllTrace pairs)
      (startState (pairs.map fun pr => pr.1))).played
        = (pairs.map fun pr => pr.1).map TextSegment.id ∧
    (run (playAllTrace pairs)
      (startState (pairs.map fun pr => pr.1))).synthCalls = pairs.length ∧
    (pairs = [] →
      run (playAllTrace pairs) (startState (pairs.map fun pr => pr.1))
        = startState (pairs.map fun pr => pr.1)) := by
  rcases pairs with _ | ⟨⟨c0, p0⟩, restPairs⟩
  · refine ⟨by decide, by decide, by decide, by decide, fun _ => by decide⟩
  · simp only [List.map_cons]
    have hstart : step .clickPlayAll
        (startState (c0 :: restPairs.map fun pr => pr.1))
        = midState (c0 :: restPairs.map fun pr => pr.1) [] c0 := by
      simp only [step, startState, initState]
      rw [stdFuel_succ]
      rw [engine_seg_miss _ _ _ _ ?hmiss]
      case hmiss => rfl
      simp [issueSynth, midState, cacheOf, deadSources]
    have hchain := chain_run restPairs [] c0 p0
      (c0 :: restPairs.map fun pr => pr.1)
      (by simp) (by simpa using hnd)
      (hok (c0, p0) (List.mem_cons_self _ _)).1
      (hok (c0, p0) (List.mem_cons_self _ _)).2
      (fun pr hpr => hok pr (List.mem_cons_of_mem _ hpr))
    have hfull : run (playAllTrace ((c0, p0) :: restPairs))
        (startState (c0 :: restPairs.map fun pr => pr.1))
        = endState (c0 :: restPairs.map fun pr => pr.1)
            ((c0, p0) :: restPairs) := by
      show run (chainEvents 0 (p0 :: restPairs.map fun pr => pr.2))
          (step .clickPlayAll
            (startState (c0 :: restPairs.map fun pr => pr.1))) = _
      rw [hstart]
      have h0 : (0 : Nat) = ([] : List (TextSegment × List Nat)).length := rfl
      rw [h0, hchain]
      simp
    rw [hfull]
    refine ⟨rfl, rfl, ?_, ?_, fun hc => by cases hc⟩
    · simp [endState, List.map_map, Function.comp_def]
    · simp [endState]

/-- Witness for C8: an error-free `playAll` over two segments plays both
in order, synthesizes each exactly once, and ends Idle. -/
theorem c8_playAll_chain_witness :
    (run (playAllTrace [(segA, goodPcm), (segB, goodPcm)])
      (startState ([(segA, goodPcm), (segB, goodPcm)].map fun pr => pr.1))).phase
        = .idle ∧
    (run (playAllTrace [(segA, goodPcm), (segB, goodPcm)])
      (startState ([(segA, goodPcm), (segB, goodPcm)].map
        fun pr => pr.1))).playingSegmentId = none ∧
    (run (playAllTrace [(segA, goodPcm), (segB, goodPcm)])
      (startState ([(segA, goodPcm), (segB, goodPcm)].map fun pr => pr.1))).played
        = ([(segA, goodPcm), (segB, goodPcm)].map fun pr => pr.1).map
            TextSegment.id ∧
    (run (playAllTrace [(segA, goodPcm), (segB, goodPcm)])
      (startState ([(segA, goodPcm), (segB, goodPcm)].map
        fun pr => pr.1))).synthCalls = [(segA, goodPcm), (segB, goodPcm)].length ∧
    ([(segA, goodPcm), (segB, goodPcm)]
        = ([] : List (TextSegment × List Nat)) →
      run (playAllTrace [(segA, goodPcm), (segB, goodPcm)])
          (startState ([(segA, goodPcm), (segB, goodPcm)].map fun pr => pr.1))
        = startState ([(segA, goodPcm), (segB, goodPcm)].map fun pr => pr.1)) :=
  c8_playAll_chain [(segA, goodPcm), (segB, goodPcm)] (by decide) (by decide)

end ReadAloud
